import Mathlib

/-!
# Verification of the gene-comparison engine (`gcompare2.py`)

A shallow embedding of the core of `gcompare2.py`:

* `sanitize_id`        — the record normalizer (`sanitize_id`);
* `loadRow`/`loadRows` — the row-merging loop of `load_file` (the CSV text
  parsing itself is an external collaborator; rows arrive as lists of string
  fields).  Python exceptions that escape the loop are modelled with `Except`;
* `Dataset`, `DataSlice`, `DatasetCollection` — the three classes, with the
  Python `set`s modelled as Lean lists carrying the (implementation-defined)
  iteration order, and Python `dict`s modelled as association lists in which
  the most recent insertion is found first.

Theorems below settle the specified properties against these definitions.
-/

/-- Python `str.split` with a one-character separator, on the character list:
splitting `[]` yields `[[]]` (Python: `"".split("-") == [""]`), a separator
character starts a new field. -/
def splitFields (sep : Char) : List Char → List (List Char)
  | [] => [[]]
  | c :: rest =>
    let r := splitFields sep rest
    if c = sep then [] :: r
    else
      match r with
      | [] => [[c]]
      | g :: gs => (c :: g) :: gs

/-- Python `s.split(sep)` for a one-character separator. -/
def pySplit (s : String) (sep : Char) : List String :=
  (splitFields sep s.data).map (fun cs => String.mk cs)

/-- Python `sep.join(l)`. -/
def joinSep (sep : String) : List String → String
  | [] => ""
  | [x] => x
  | x :: y :: xs => x ++ sep ++ joinSep sep (y :: xs)

/-- The function `sanitize_id` (gcompare2.py:37): split the identifier on `-`, drop the
leading field when it is the literal `tRNA`, and join the first (up to) three
remaining fields with `-`.  (`pySplit` never returns `[]`, so indexing the
first field never fails; `headD ""` is only a total-function guard.) -/
def sanitize_id (ident : String) : String :=
  let id_fields := pySplit ident '-'
  let id_fields := if id_fields.headD "" = "tRNA" then id_fields.tail else id_fields
  joinSep "-" (id_fields.take 3)

/-- The `Gene` namedtuple (gcompare2.py:34). -/
structure Gene where
  id : String
  iso : String
  foldcount : String
  p_value : String
deriving DecidableEq

/-- The tuple `Gene._fields`, in declared order. -/
def Gene_fields : List String := ["id", "iso", "foldcount", "p_value"]

/-- Python `getattr(g, f)` for a field name drawn from `Gene._fields`.  (Python
raises `AttributeError` on any other name; the program only ever passes
members of `Gene._fields`.) -/
def Gene.attr (g : Gene) (f : String) : String :=
  if f = "id" then g.id
  else if f = "iso" then g.iso
  else if f = "foldcount" then g.foldcount
  else g.p_value

/-- The `genes` dict of `load_file`: an association list in which the most
recently inserted binding is found first, so insertion of an existing key
overwrites the visible binding. -/
abbrev Table := List (String × Gene)

/-- Lookup `genes[k]` as an optional value (Python raises `KeyError` when absent). -/
def lookupTable (t : Table) (k : String) : Option Gene :=
  (t.find? (fun p => decide (p.1 = k))).map Prod.snd

/-- Lookup `genes[k]` where the key is known to be present; the default is the
model's stand-in for Python's `KeyError` and is never reached on the
program's own call sites. -/
def tableGet (t : Table) (k : String) : Gene :=
  (lookupTable t k).getD ⟨"", "", "", ""⟩

/-- The keys `genes.keys()`: each key once (first — i.e. most recent — binding wins). -/
def tableKeys (t : Table) : List String :=
  (t.map Prod.fst).dedup

/-- One iteration of the row loop of `load_file` (gcompare2.py:55-63) on the
state `(genes, skipped)`.  `fields = l[0:4]`; `fields[0]` on an empty row
raises `IndexError`, which the `except TypeError` handler does NOT catch, so
the whole load aborts (`Except.error`).  `Gene(*fields)` with fewer than four
arguments raises `TypeError`, which IS caught: the row is counted as skipped.
Otherwise the record is inserted, overwriting any previous binding of its
sanitized id. -/
def loadRow (genes : Table) (skipped : Nat) (l : List String) :
    Except Unit (Table × Nat) :=
  match l with
  | [] => .error ()
  | x :: xs =>
    match xs.take 3 with
    | [iso, fc, p] =>
      .ok ((sanitize_id x, Gene.mk (sanitize_id x) iso fc p) :: genes, skipped)
    | _ => .ok (genes, skipped + 1)

/-- The row loop of `load_file` over the remaining rows, threading the
`(genes, skipped)` state; an uncaught exception aborts the whole loop. -/
def loadRowsGo (genes : Table) (skipped : Nat) :
    List (List String) → Except Unit (Table × Nat)
  | [] => .ok (genes, skipped)
  | l :: rest =>
    match loadRow genes skipped l with
    | .error e => .error e
    | .ok (g, s) => loadRowsGo g s rest

/-- Processing by `load_file` of the data rows (everything after the header). -/
def loadRows (rows : List (List String)) : Except Unit (Table × Nat) :=
  loadRowsGo [] 0 rows

/-- The function `load_file` (gcompare2.py:44-65) on the decoded rows of the file:
`next(reader)` discards the header (and raises `StopIteration` on an empty
file — modelled as an error), then the row loop runs. -/
def load_file (rows : List (List String)) : Except Unit (Table × Nat) :=
  match rows with
  | [] => .error ()
  | _ :: data => loadRows data

/-- The class `Dataset` (gcompare2.py:68): a named, loaded record table. -/
structure Dataset where
  genes : Table
  name : String
deriving DecidableEq

/-- The attribute `self.ids = frozenset(genes.keys())` — the key set, as a duplicate-free
list. -/
def Dataset.ids (d : Dataset) : List String := tableKeys d.genes

/-- Python string comparison `a <= b` (lexicographic by code point), as a
computable Boolean on the character lists. -/
def charListLe : List Char → List Char → Bool
  | [], _ => true
  | _ :: _, [] => false
  | c :: cs, d :: ds => if c < d then true else if d < c then false else charListLe cs ds

/-- Ordering of datasets by name, as used by `sorted(..., key=lambda d: d.name)`:
Python's string comparison on the `name` attributes. -/
def nameLe (a b : Dataset) : Prop := charListLe a.name.data b.name.data = true

instance : DecidableRel nameLe :=
  fun a b => inferInstanceAs (Decidable (charListLe a.name.data b.name.data = true))

/-- The class `DatasetCollection` (gcompare2.py:120): the dataset set (a list in
iteration order) and the shared `gene_names` dict. -/
structure DatasetCollection where
  datasets : List Dataset
  gene_names : List (String × String)
deriving DecidableEq

/-- The method `DatasetCollection.add`: insertion into `self.datasets` (a `set`, so a
duplicate is a no-op). -/
def DatasetCollection.add (c : DatasetCollection) (d : Dataset) : DatasetCollection :=
  if d ∈ c.datasets then c else { c with datasets := c.datasets ++ [d] }

/-- Python `self.gene_names.get(i, "")`. -/
def dictGet (m : List (String × String)) (k dflt : String) : String :=
  ((m.find? (fun p => decide (p.1 = k))).map Prod.snd).getD dflt

/-- The class `DataSlice` (gcompare2.py:81): `__init__` stores `keep`, `exclude`
and the owning collection; `name` and `ids` are computed from them at
construction and are modelled as functions of the stored fields. -/
structure DataSlice where
  keep : List Dataset
  exclude : List Dataset
  collection : DatasetCollection
deriving DecidableEq

/-- The attribute `self.name` (gcompare2.py:85-88): the keep names joined by `" & "` and the
exclude names joined by `" | "`, each in the set's iteration order. -/
def DataSlice.name (s : DataSlice) : String :=
  "(" ++ joinSep " & " (s.keep.map Dataset.name) ++ ") - ("
      ++ joinSep " | " (s.exclude.map Dataset.name) ++ ")"

/-- The method `DataSlice._calc_ids` (gcompare2.py:95-101):
`keep_ids[0].intersection(*keep_ids[1:]).difference(*exclude_ids)`, sorted.
(On an empty `keep` the Python indexing `keep_ids[0]` raises `IndexError`;
`slices()` never constructs such a slice, and the model returns `[]` there.) -/
def calc_ids (keep exclude : List Dataset) : List String :=
  match keep with
  | [] => []
  | d :: ds =>
    List.insertionSort (· ≤ ·)
      (exclude.foldl (fun acc e => acc.filter (fun i => decide (i ∉ e.ids)))
        (ds.foldl (fun acc e => acc.filter (fun i => decide (i ∈ e.ids))) d.ids))

/-- The attribute `self.ids`, computed at construction. -/
def DataSlice.ids (s : DataSlice) : List String := calc_ids s.keep s.exclude

/-- Python `sorted(self.keep, key=lambda d: d.name)`. -/
def DataSlice.sortedKeep (s : DataSlice) : List Dataset :=
  List.insertionSort nameLe s.keep

/-- The method `DataSlice.fields` (gcompare2.py:103-108): start from
`list(Gene._fields[0:2])` and, for each payload field and each keep dataset
sorted by name, append `"<dataset name> <field name>"`. -/
def DataSlice.fields (s : DataSlice) : List String :=
  (Gene_fields.drop 2).foldl
    (fun fs f => s.sortedKeep.foldl (fun fs d => fs ++ [d.name ++ " " ++ f]) fs)
    (Gene_fields.take 2)

/-- The method `DataSlice.genes` (gcompare2.py:110-117): one row per id, starting from
`[i, name]` with `name = self.collection.gene_names.get(i, "")`, then for each
payload field and each keep dataset sorted by name append
`getattr(d.genes[i], f)`. -/
def DataSlice.genes (s : DataSlice) : List (List String) :=
  s.ids.map (fun i =>
    let nm := dictGet s.collection.gene_names i ""
    (Gene_fields.drop 2).foldl
      (fun vs f => s.sortedKeep.foldl (fun vs d => vs ++ [(tableGet d.genes i).attr f]) vs)
      [i, nm])

/-- The method `DatasetCollection.slices` (gcompare2.py:128-134): for each size
`l+1` with `l < len(self.datasets)`, for each combination `c` of that size,
yield `DataSlice(set(c), self.datasets - set(c), self)`. -/
def DatasetCollection.slices (c : DatasetCollection) : List DataSlice :=
  (List.range c.datasets.length).flatMap (fun l =>
    (List.sublistsLen (l + 1) c.datasets).map (fun keepL =>
      { keep := keepL
        exclude := c.datasets.filter (fun d => decide (d ∉ keepL))
        collection := c }))

/-- The slice-name format the spec prescribes (spec.md §4.5): the keep names
and the exclude names each sorted by dataset name before joining.  Written
from the spec's words, for comparison with `DataSlice.name`. -/
def nameSortedSpec (keep exclude : List Dataset) : String :=
  "(" ++ joinSep " & " ((List.insertionSort nameLe keep).map Dataset.name) ++ ") - ("
      ++ joinSep " | " ((List.insertionSort nameLe exclude).map Dataset.name) ++ ")"

/-- The payload field names in declared order (spec.md §4.5: `foldcount` then
`p_value`).  Written from the spec's words. -/
def payloadFields : List String := ["foldcount", "p_value"]

/-- The output header row as the spec words it (spec.md §4.5): the two
identity columns, then for each payload field in declared order one column
per keep dataset sorted by dataset name, labeled `"<name> <field>"`. -/
def fieldsSpec (s : DataSlice) : List String :=
  "id" :: "iso" :: payloadFields.flatMap (fun f =>
    s.sortedKeep.map (fun d => d.name ++ " " ++ f))

/-- The output row for one id as the spec words it (spec.md §4.5): the id,
the display name (defaulting to the empty string), then for each payload
field in declared order, for each keep dataset sorted by name, that
dataset's value for that field at that id. -/
def geneRowSpec (s : DataSlice) (i : String) : List String :=
  i :: dictGet s.collection.gene_names i "" ::
    payloadFields.flatMap (fun f =>
      s.sortedKeep.map (fun d => (tableGet d.genes i).attr f))

/-- The record a well-formed data row (at least four fields) contributes:
the first four fields, with the id sanitized; `none` for malformed rows. -/
def rowGene (l : List String) : Option Gene :=
  match l with
  | x :: iso :: fc :: p :: _ => some ⟨sanitize_id x, iso, fc, p⟩
  | _ => none

/-- The record the rows leave visible under key `i`, starting from `init`:
each well-formed row whose sanitized id is `i` replaces the previous value
(last write wins). -/
def lastGeneFrom (init : Option Gene) (rows : List (List String)) (i : String) :
    Option Gene :=
  rows.foldl (fun acc l =>
    match rowGene l with
    | some g => if g.id = i then some g else acc
    | none => acc) init

/-- The record the last same-key row leaves in the table (spec.md §3:
later rows with the same key overwrite earlier ones). -/
def lastGene (rows : List (List String)) (i : String) : Option Gene :=
  lastGeneFrom none rows i

/-- Explicit-state reading of running the `slices()` generator to completion:
the loop body reads `self.datasets` and constructs slices but assigns to no
attribute of the collection, so the collection state comes back unchanged. -/
def DatasetCollection.slicesRun (c : DatasetCollection) :
    List DataSlice × DatasetCollection :=
  (c.slices, c)

/-- Explicit-state reading of fully consuming `genes()` for every slice of
one enumeration: `genes()` reads `self.ids`, the keep datasets' tables and
`self.collection.gene_names`, and assigns nothing. -/
def DatasetCollection.consumeSlices (c : DatasetCollection) :
    List (List (List String)) × DatasetCollection :=
  (c.slices.map (fun s => s.genes), c)

/-- Concrete dataset `A` for witnesses: genes `x` and `z`. -/
def wdA : Dataset :=
  ⟨[("x", ⟨"x", "ia", "fa", "pa"⟩), ("z", ⟨"z", "iz", "fz", "pz"⟩)], "A"⟩

/-- Concrete dataset `B` for witnesses: genes `x` and `y`. -/
def wdB : Dataset :=
  ⟨[("x", ⟨"x", "ib", "fb", "pb"⟩), ("y", ⟨"y", "iy", "fy", "py"⟩)], "B"⟩

/-- Concrete two-dataset collection for witnesses. -/
def wCol : DatasetCollection := ⟨[wdA, wdB], []⟩

/-- The keep-both slice that `wCol.slices` produces. -/
def wSlice : DataSlice := ⟨[wdA, wdB], [], wCol⟩

/-- A collection whose set-iteration order is not alphabetical: dataset `b`
before dataset `a`. -/
def nameCol : DatasetCollection := ⟨[⟨[], "b"⟩, ⟨[], "a"⟩], []⟩

/-- The keep-both slice that `nameCol.slices` produces. -/
def nameColSlice : DataSlice := ⟨[⟨[], "b"⟩, ⟨[], "a"⟩], [], nameCol⟩

/-- Two rows whose ids sanitize to the same key `A-B-C`. -/
def dupRows : List (List String) :=
  [["tRNA-A-B-C-1", "i1", "f1", "p1"], ["A-B-C", "i2", "f2", "p2"]]

/-- The table `loadRows dupRows` builds: the second binding shadows the first. -/
def dupTable : Table :=
  [("A-B-C", ⟨"A-B-C", "i2", "f2", "p2"⟩), ("A-B-C", ⟨"A-B-C", "i1", "f1", "p1"⟩)]

theorem lookupTable_cons (k : String) (g : Gene) (t : Table) (i : String) :
    lookupTable ((k, g) :: t) i = if k = i then some g else lookupTable t i := by
  by_cases h : k = i <;> simp [lookupTable, List.find?_cons, h]

theorem lastGeneFrom_cons (init : Option Gene) (l : List String)
    (rest : List (List String)) (i : String) :
    lastGeneFrom init (l :: rest) i =
      lastGeneFrom
        (match rowGene l with
          | some g => if g.id = i then some g else init
          | none => init) rest i := rfl

theorem loadRowsGo_lookup (rows : List (List String)) :
    ∀ (genes : Table) (skipped : Nat) (t : Table) (s : Nat),
      loadRowsGo genes skipped rows = Except.ok (t, s) →
      ∀ i, lookupTable t i = lastGeneFrom (lookupTable genes i) rows i := by
  induction rows with
  | nil =>
    intro genes skipped t s h i
    simp only [loadRowsGo] at h
    obtain ⟨rfl, rfl⟩ := Prod.mk.injEq .. ▸ (Except.ok.injEq .. ▸ h)
    rfl
  | cons l rest ih =>
    intro genes skipped t s h i
    match l with
    | [] => simp [loadRowsGo, loadRow] at h
    | [x] =>
      rw [lastGeneFrom_cons]
      simp only [loadRowsGo, loadRow, List.take] at h
      exact ih _ _ _ _ h i
    | [x, a] =>
      rw [lastGeneFrom_cons]
      simp only [loadRowsGo, loadRow, List.take] at h
      exact ih _ _ _ _ h i
    | [x, a, b] =>
      rw [lastGeneFrom_cons]
      simp only [loadRowsGo, loadRow, List.take] at h
      exact ih _ _ _ _ h i
    | x :: a :: b :: c :: xs =>
      rw [lastGeneFrom_cons]
      simp only [loadRowsGo, loadRow, List.take] at h
      have := ih _ _ _ _ h i
      rw [lookupTable_cons] at this
      simpa [rowGene] using this

theorem loadRowsGo_ok (rows : List (List String)) :
    ∀ (genes : Table) (skipped : Nat), (∀ l ∈ rows, l ≠ []) →
      ∃ t s, loadRowsGo genes skipped rows = Except.ok (t, s) := by
  induction rows with
  | nil => intro genes skipped _; exact ⟨genes, skipped, rfl⟩
  | cons l rest ih =>
    intro genes skipped h
    have hrest : ∀ l' ∈ rest, l' ≠ [] := fun l' hm => h l' (List.mem_cons_of_mem _ hm)
    match l, h l (List.mem_cons_self l rest) with
    | [x], _ => exact ih _ _ hrest
    | [x, a], _ => exact ih _ _ hrest
    | [x, a, b], _ => exact ih _ _ hrest
    | x :: a :: b :: c :: xs, _ => exact ih _ _ hrest

theorem rowGene_eq_some (l : List String) (g : Gene) (h : rowGene l = some g) :
    ∃ x xs, l = x :: xs ∧ g.id = sanitize_id x := by
  match l, h with
  | x :: a :: b :: c :: rest, h =>
    refine ⟨x, a :: b :: c :: rest, rfl, ?_⟩
    have h' : (⟨sanitize_id x, a, b, c⟩ : Gene) = g := by injection h
    rw [← h']

theorem lastGeneFrom_eq_some (rows : List (List String)) :
    ∀ (init : Option Gene) (i : String) (g : Gene),
      lastGeneFrom init rows i = some g →
      init = some g ∨ (g.id = i ∧ ∃ l ∈ rows, rowGene l = some g) := by
  induction rows with
  | nil => intro init i g h; exact Or.inl h
  | cons l rest ih =>
    intro init i g h
    rw [lastGeneFrom_cons] at h
    rcases ih _ i g h with h' | ⟨hid, l', hmem, hrow⟩
    · revert h'
      cases hr : rowGene l with
      | none => intro h'; exact Or.inl h'
      | some g' =>
        intro h'
        have h'' : (if g'.id = i then some g' else init) = some g := h'
        by_cases hi : g'.id = i
        · rw [if_pos hi] at h''
          obtain rfl : g' = g := by injection h''
          exact Or.inr ⟨hi, l, List.mem_cons_self .., hr⟩
        · rw [if_neg hi] at h''
          exact Or.inl h''
    · exact Or.inr ⟨hid, l', List.mem_cons_of_mem _ hmem, hrow⟩

theorem mem_tableKeys_iff (t : Table) (i : String) :
    i ∈ tableKeys t ↔ (lookupTable t i).isSome := by
  rw [tableKeys, List.mem_dedup, lookupTable, Option.isSome_map', List.find?_isSome]
  simp only [List.mem_map, decide_eq_true_eq]

/-- C7: the record normalizer is a pure total function: it splits on `-`,
drops the first field exactly when that field is the literal `tRNA`, and
joins the first (up to) three remaining fields with `-`; shorter inputs just
give shorter joined strings, and the two reference inputs normalize as
specified. -/
theorem sanitize_id_behavior :
    (∀ s : String, (pySplit s '-').headD "" = "tRNA" →
        sanitize_id s = joinSep "-" ((pySplit s '-').tail.take 3)) ∧
    (∀ s : String, (pySplit s '-').headD "" ≠ "tRNA" →
        sanitize_id s = joinSep "-" ((pySplit s '-').take 3)) ∧
    sanitize_id "tRNA-Ala-CGC-1-2" = "Ala-CGC-1" ∧
    sanitize_id "Foo-Bar-Baz-Qux" = "Foo-Bar-Baz" ∧
    sanitize_id "tRNA" = "" := by
  refine ⟨?_, ?_, by decide, by decide, by decide⟩
  · intro s h
    simp only [sanitize_id]
    rw [if_pos h]
  · intro s h
    simp only [sanitize_id]
    rw [if_neg h]

theorem sanitize_id_behavior_witness :
    sanitize_id "tRNA-a-b-c-d" = joinSep "-" ((pySplit "tRNA-a-b-c-d" '-').tail.take 3) ∧
    sanitize_id "Foo-Bar" = joinSep "-" ((pySplit "Foo-Bar" '-').take 3) :=
  ⟨sanitize_id_behavior.1 "tRNA-a-b-c-d" (by decide),
   sanitize_id_behavior.2.1 "Foo-Bar" (by decide)⟩

/-- C6 (counterexample): a data row with zero fields (a blank line in the
CSV) raises an uncaught `IndexError` at `fields[0]` and aborts the whole
load — the following well-formed row is never processed — contradicting the
claim that every malformed row is skipped and loading always continues. -/
theorem zero_field_row_aborts_load :
    loadRows [[], ["a", "b", "c", "d"]] = Except.error () := rfl

/-- C6 (amended): a malformed data row with at least one field but fewer
than four is recovered locally — the skip counter is incremented, nothing is
inserted, and loading continues with the remaining rows — while a row with
zero fields aborts the load with an uncaught error. -/
theorem malformed_row_recovered (genes : Table) (skipped : Nat)
    (l : List String) (rest : List (List String))
    (hne : l ≠ []) (hlt : l.length < 4) :
    loadRowsGo genes skipped (l :: rest) = loadRowsGo genes (skipped + 1) rest ∧
    loadRowsGo genes skipped ([] :: rest) = Except.error () := by
  constructor
  · match l, hne, hlt with
    | [x], _, _ => rfl
    | [x, a], _, _ => rfl
    | [x, a, b], _, _ => rfl
    | x :: a :: b :: c :: xs, _, hlt => simp [List.length_cons] at hlt; omega
  · rfl

theorem malformed_row_recovered_witness :
    loadRowsGo [] 0 [["a", "b", "c"], ["w", "x", "y", "z"]] =
        loadRowsGo [] (0 + 1) [["w", "x", "y", "z"]] ∧
    loadRowsGo [] 0 ([] :: [["w", "x", "y", "z"]]) = Except.error () :=
  malformed_row_recovered [] 0 ["a", "b", "c"] [["w", "x", "y", "z"]]
    (by decide) (by decide)

/-- C8: when several rows normalize to the same canonical id, the visible
binding in the resulting table is the record of the last such row (each
insertion overwrites), and a load whose rows all have at least one field
raises no error. -/
theorem load_last_row_wins (rows : List (List String)) :
    (∀ t s, loadRows rows = Except.ok (t, s) →
      ∀ i, lookupTable t i = lastGene rows i) ∧
    ((∀ l ∈ rows, l ≠ []) → ∃ t s, loadRows rows = Except.ok (t, s)) := by
  constructor
  · intro t s h i
    have h' := loadRowsGo_lookup rows [] 0 t s h i
    simpa [lastGene, lookupTable] using h'
  · intro h
    exact loadRowsGo_ok rows [] 0 h

theorem load_last_row_wins_witness :
    lookupTable dupTable "A-B-C" = lastGene dupRows "A-B-C" ∧
    lastGene dupRows "A-B-C" = some ⟨"A-B-C", "i2", "f2", "p2"⟩ :=
  ⟨(load_last_row_wins dupRows).1 dupTable 0 rfl "A-B-C", by decide⟩

/-- C10: in every table `load_file`'s row loop returns, each key maps to a
record whose `id` field equals that key, each key is the sanitized first
field of some input row, and the derived `ids` set of a `Dataset` built from
the table consists exactly of the `id` fields of the stored records. -/
theorem load_table_keys (rows : List (List String)) (t : Table) (s : Nat)
    (nm : String) (h : loadRows rows = Except.ok (t, s)) :
    (∀ k g, lookupTable t k = some g → g.id = k) ∧
    (∀ k g, lookupTable t k = some g →
      ∃ l ∈ rows, ∃ x xs, l = x :: xs ∧ k = sanitize_id x) ∧
    (∀ i, i ∈ (Dataset.mk t nm).ids ↔
      ∃ g, lookupTable t i = some g ∧ g.id = i) := by
  have hlook : ∀ i, lookupTable t i = lastGene rows i := by
    intro i
    have h' := loadRowsGo_lookup rows [] 0 t s h i
    simpa [lastGene, lookupTable] using h'
  have hid : ∀ k g, lookupTable t k = some g → g.id = k := by
    intro k g hk
    rw [hlook k] at hk
    rcases lastGeneFrom_eq_some rows none k g hk with h' | ⟨hgi, _⟩
    · exact absurd h' (by simp)
    · exact hgi
  refine ⟨hid, ?_, ?_⟩
  · intro k g hk
    rw [hlook k] at hk
    rcases lastGeneFrom_eq_some rows none k g hk with h' | ⟨hgi, l, hmem, hrow⟩
    · exact absurd h' (by simp)
    · obtain ⟨x, xs, rfl, hgx⟩ := rowGene_eq_some l g hrow
      exact ⟨x :: xs, hmem, x, xs, rfl, by rw [← hgi, hgx]⟩
  · intro i
    rw [show (Dataset.mk t nm).ids = tableKeys t from rfl, mem_tableKeys_iff]
    constructor
    · intro hsome
      obtain ⟨g, hg⟩ := Option.isSome_iff_exists.mp hsome
      exact ⟨g, hg, hid i g hg⟩
    · rintro ⟨g, hg, _⟩
      rw [hg]
      rfl

theorem load_table_keys_witness :
    "A-B-C" ∈ (Dataset.mk dupTable "D").ids ↔
      ∃ g, lookupTable dupTable "A-B-C" = some g ∧ g.id = "A-B-C" :=
  (load_table_keys dupRows dupTable 0 "D" rfl).2.2 "A-B-C"

theorem mem_slices_iff {c : DatasetCollection} {s : DataSlice} :
    s ∈ c.slices ↔ ∃ keepL, keepL.Sublist c.datasets ∧ keepL ≠ [] ∧
      s = ⟨keepL, c.datasets.filter (fun d => decide (d ∉ keepL)), c⟩ := by
  simp only [DatasetCollection.slices, List.mem_flatMap, List.mem_map, List.mem_range,
    List.mem_sublistsLen]
  constructor
  · rintro ⟨l, hl, keepL, ⟨hsub, hlen⟩, rfl⟩
    refine ⟨keepL, hsub, ?_, rfl⟩
    intro h0
    rw [h0] at hlen
    simp at hlen
  · rintro ⟨keepL, hsub, hne, rfl⟩
    have h1 : 0 < keepL.length := List.length_pos.mpr hne
    have h2 : keepL.length ≤ c.datasets.length := hsub.length_le
    refine ⟨keepL.length - 1, by omega, keepL, ⟨hsub, by omega⟩, rfl⟩

theorem mem_foldl_filter {p : Dataset → String → Prop} [∀ e i, Decidable (p e i)]
    (ds : List Dataset) (init : List String) (i : String) :
    i ∈ ds.foldl (fun acc e => acc.filter (fun x => decide (p e x))) init ↔
      i ∈ init ∧ ∀ e ∈ ds, p e i := by
  induction ds generalizing init with
  | nil => simp
  | cons e ds ih =>
    rw [List.foldl_cons, ih]
    simp only [List.mem_filter, decide_eq_true_eq, List.forall_mem_cons]
    tauto

theorem nodup_foldl_filter {p : Dataset → String → Prop} [∀ e i, Decidable (p e i)]
    (ds : List Dataset) (init : List String) (h : init.Nodup) :
    (ds.foldl (fun acc e => acc.filter (fun x => decide (p e x))) init).Nodup := by
  induction ds generalizing init with
  | nil => exact h
  | cons e ds ih => exact ih _ (h.filter _)

theorem mem_calc_ids {keep exclude : List Dataset} (hne : keep ≠ []) (i : String) :
    i ∈ calc_ids keep exclude ↔
      (∀ d ∈ keep, i ∈ d.ids) ∧ ∀ d ∈ exclude, i ∉ d.ids := by
  match keep, hne with
  | d :: ds, _ =>
    rw [calc_ids, List.mem_insertionSort,
      mem_foldl_filter (p := fun e x => x ∉ e.ids),
      mem_foldl_filter (p := fun e x => x ∈ e.ids)]
    simp only [List.forall_mem_cons]

theorem calc_ids_sorted (keep exclude : List Dataset) :
    (calc_ids keep exclude).Sorted (· < ·) := by
  match keep with
  | [] => exact List.sorted_nil
  | d :: ds =>
    rw [calc_ids]
    have hnodup :
        ((exclude.foldl (fun acc e => acc.filter (fun i => decide (i ∉ e.ids)))
          (ds.foldl (fun acc e => acc.filter (fun i => decide (i ∈ e.ids))) d.ids))).Nodup :=
      nodup_foldl_filter (p := fun e x => x ∉ e.ids) _ _
        (nodup_foldl_filter (p := fun e x => x ∈ e.ids) _ _ (List.nodup_dedup _))
    have hsorted := List.sorted_insertionSort (α := String) (· ≤ ·)
      (exclude.foldl (fun acc e => acc.filter (fun i => decide (i ∉ e.ids)))
        (ds.foldl (fun acc e => acc.filter (fun i => decide (i ∈ e.ids))) d.ids))
    have hnodup' := ((List.perm_insertionSort (α := String) (· ≤ ·) _).nodup_iff).mpr hnodup
    exact hsorted.lt_of_le hnodup'

/-- C1: for every slice produced by `slices()`, membership in `ids` is
exactly "in every keep dataset and in no exclude dataset" (i.e. `ids` is the
intersection of the keep id sets minus the union of the exclude id sets),
and `ids` is strictly ascending, hence duplicate-free. -/
theorem slice_ids_characterization (c : DatasetCollection) (s : DataSlice)
    (hs : s ∈ c.slices) :
    (∀ i, i ∈ s.ids ↔
      ((∀ d ∈ s.keep, i ∈ d.ids) ∧ ∀ d ∈ s.exclude, i ∉ d.ids)) ∧
    s.ids.Sorted (· < ·) := by
  obtain ⟨keepL, hsub, hne, rfl⟩ := mem_slices_iff.mp hs
  exact ⟨fun i => mem_calc_ids hne i, calc_ids_sorted _ _⟩

theorem slice_ids_characterization_witness :
    (∀ i, i ∈ wSlice.ids ↔
      ((∀ d ∈ wSlice.keep, i ∈ d.ids) ∧ ∀ d ∈ wSlice.exclude, i ∉ d.ids)) ∧
    wSlice.ids.Sorted (· < ·) :=
  slice_ids_characterization wCol wSlice (by decide)

/-- C3: for every slice produced by `slices()`, `keep` and `exclude` are
disjoint, together they cover exactly the collection's dataset set, and
`keep` is non-empty. -/
theorem slice_partition (c : DatasetCollection) (s : DataSlice)
    (hs : s ∈ c.slices) :
    Disjoint s.keep.toFinset s.exclude.toFinset ∧
    s.keep.toFinset ∪ s.exclude.toFinset = c.datasets.toFinset ∧
    s.keep ≠ [] := by
  obtain ⟨keepL, hsub, hne, rfl⟩ := mem_slices_iff.mp hs
  refine ⟨?_, ?_, hne⟩
  · rw [Finset.disjoint_left]
    intro d hd hd'
    simp only [List.mem_toFinset, List.mem_filter, decide_eq_true_eq] at hd hd'
    exact hd'.2 hd
  · ext d
    simp only [Finset.mem_union, List.mem_toFinset, List.mem_filter, decide_eq_true_eq]
    constructor
    · rintro (h | ⟨h, _⟩)
      · exact hsub.subset h
      · exact h
    · intro h
      by_cases hk : d ∈ keepL
      · exact Or.inl hk
      · exact Or.inr ⟨h, hk⟩

theorem slice_partition_witness :
    Disjoint (⟨[wdA], [wdB], wCol⟩ : DataSlice).keep.toFinset
      (⟨[wdA], [wdB], wCol⟩ : DataSlice).exclude.toFinset ∧
    (⟨[wdA], [wdB], wCol⟩ : DataSlice).keep.toFinset ∪
      (⟨[wdA], [wdB], wCol⟩ : DataSlice).exclude.toFinset = wCol.datasets.toFinset ∧
    (⟨[wdA], [wdB], wCol⟩ : DataSlice).keep ≠ [] :=
  slice_partition wCol ⟨[wdA], [wdB], wCol⟩ (by decide)

theorem list_sum_range_choose (n : ℕ) :
    ((List.range (n + 1)).map (fun m => n.choose m)).sum = 2 ^ n := by
  rw [← Nat.sum_range_choose n]
  rfl

theorem sum_range_choose_succ (n : ℕ) :
    ((List.range n).map (fun l => n.choose (l + 1))).sum = 2 ^ n - 1 := by
  have h2 := list_sum_range_choose n
  rw [List.range_succ_eq_map, List.map_cons, List.map_map, List.sum_cons] at h2
  have h3 : (List.range n).map (n.choose ∘ Nat.succ) =
      (List.range n).map (fun l => n.choose (l + 1)) := by
    apply List.map_congr_left
    intro a _
    rfl
  rw [h3, Nat.choose_zero_right] at h2
  omega

theorem slices_length (c : DatasetCollection) :
    c.slices.length = 2 ^ c.datasets.length - 1 := by
  rw [DatasetCollection.slices, List.flatMap_def, List.length_flatten, List.map_map]
  have h : ((List.range c.datasets.length).map
      (List.length ∘ fun l => (List.sublistsLen (l + 1) c.datasets).map
        (fun keepL => (⟨keepL, c.datasets.filter (fun d => decide (d ∉ keepL)), c⟩ : DataSlice)))) =
      (List.range c.datasets.length).map
        (fun l => c.datasets.length.choose (l + 1)) := by
    apply List.map_congr_left
    intro l _
    simp [List.length_sublistsLen]
  rw [h, sum_range_choose_succ]

theorem sublist_eq_filter_of_nodup {xs l : List Dataset} (hsub : xs.Sublist l)
    (hnodup : l.Nodup) : xs = l.filter (fun a => decide (a ∈ xs)) := by
  induction hsub with
  | slnil => rfl
  | @cons l₁ l₂ a hsub ih =>
    have hna : a ∉ l₂ := (List.nodup_cons.mp hnodup).1
    have hnotin : a ∉ l₁ := fun hmem => hna (hsub.subset hmem)
    rw [List.filter_cons_of_neg (by simpa using hnotin)]
    exact ih (List.nodup_cons.mp hnodup).2
  | @cons₂ l₁ l₂ a hsub ih =>
    have hna : a ∉ l₂ := (List.nodup_cons.mp hnodup).1
    rw [List.filter_cons_of_pos (by simp)]
    have hcong : l₂.filter (fun b => decide (b ∈ a :: l₁)) =
        l₂.filter (fun b => decide (b ∈ l₁)) := by
      apply List.filter_congr
      intro b hb
      have hba : b ≠ a := fun h => hna (h ▸ hb)
      simp [List.mem_cons, hba]
    rw [hcong, ← ih (List.nodup_cons.mp hnodup).2]

theorem countP_eq_one_of_unique {α : Type} {l : List α} {p : α → Bool} {x : α}
    (hnodup : l.Nodup) (hx : x ∈ l) (hpx : p x = true)
    (huniq : ∀ y ∈ l, p y = true → y = x) : l.countP p = 1 := by
  induction l with
  | nil => cases hx
  | cons a l ih =>
    rw [List.countP_cons]
    rcases List.mem_cons.mp hx with rfl | hx'
    · have h0 : l.countP p = 0 := by
        rw [List.countP_eq_zero]
        intro b hb hpb
        have hbx := huniq b (List.mem_cons_of_mem _ hb) hpb
        exact absurd (hbx ▸ hb) (List.nodup_cons.mp hnodup).1
      rw [h0, hpx]
      rfl
    · have ha : ¬(p a = true) := by
        intro hpa
        have hax := huniq a (List.mem_cons_self a l) hpa
        exact absurd (hax ▸ hx') (List.nodup_cons.mp hnodup).1
      rw [if_neg ha, Nat.add_zero]
      exact ih (List.nodup_cons.mp hnodup).2 hx'
        (fun y hy hpy => huniq y (List.mem_cons_of_mem _ hy) hpy)

theorem slices_nodup (c : DatasetCollection) (h : c.datasets.Nodup) :
    c.slices.Nodup := by
  rw [DatasetCollection.slices, List.nodup_flatMap]
  constructor
  · intro l _
    refine (List.nodup_sublistsLen (l + 1) h).map ?_
    intro a b hab
    exact ((DataSlice.mk.injEq ..).mp hab).1
  · refine (List.pairwise_lt_range _).imp ?_
    intro a b hab s hsa hsb
    simp only [List.mem_map, List.mem_sublistsLen] at hsa hsb
    obtain ⟨ka, ⟨_, hka⟩, rfl⟩ := hsa
    obtain ⟨kb, ⟨_, hkb⟩, heq⟩ := hsb
    have : ka = kb := (((DataSlice.mk.injEq ..).mp heq).1).symm
    exact absurd (hka ▸ this ▸ hkb) (by omega)

theorem slices_countP (c : DatasetCollection) (h : c.datasets.Nodup)
    (S : Finset Dataset) (hS : S.Nonempty) (hsub : S ⊆ c.datasets.toFinset) :
    c.slices.countP (fun s => decide (s.keep.toFinset = S ∧
      s.exclude.toFinset = c.datasets.toFinset \ S)) = 1 := by
  have hkeep_sub : (c.datasets.filter (fun d => decide (d ∈ S))).Sublist c.datasets :=
    List.filter_sublist _
  have hkeep_ne : c.datasets.filter (fun d => decide (d ∈ S)) ≠ [] := by
    obtain ⟨d, hd⟩ := hS
    have hd' : d ∈ c.datasets := by simpa [List.mem_toFinset] using hsub hd
    intro h0
    have hmem : d ∈ c.datasets.filter (fun d => decide (d ∈ S)) := by
      simp [List.mem_filter, hd', hd]
    rw [h0] at hmem
    cases hmem
  have hs0 : (⟨c.datasets.filter (fun d => decide (d ∈ S)),
      c.datasets.filter (fun d => decide (d ∉ c.datasets.filter (fun d => decide (d ∈ S)))),
      c⟩ : DataSlice) ∈ c.slices :=
    mem_slices_iff.mpr ⟨_, hkeep_sub, hkeep_ne, rfl⟩
  have hkeepS : (c.datasets.filter (fun d => decide (d ∈ S))).toFinset = S := by
    ext d
    simp only [List.mem_toFinset, List.mem_filter, decide_eq_true_eq]
    constructor
    · rintro ⟨_, h2⟩
      exact h2
    · intro hdS
      exact ⟨by simpa [List.mem_toFinset] using hsub hdS, hdS⟩
  have hexcl : ∀ keepL : List Dataset, keepL.Sublist c.datasets → keepL.toFinset = S →
      (c.datasets.filter (fun d => decide (d ∉ keepL))).toFinset =
        c.datasets.toFinset \ S := by
    intro keepL hsubL hLS
    ext d
    have hmemL : d ∈ keepL ↔ d ∈ S := by rw [← List.mem_toFinset, hLS]
    simp only [List.mem_toFinset, List.mem_filter, decide_eq_true_eq, Finset.mem_sdiff,
      List.mem_toFinset]
    tauto
  apply countP_eq_one_of_unique (slices_nodup c h) hs0
  · simp only [decide_eq_true_eq]
    exact ⟨hkeepS, hexcl _ hkeep_sub hkeepS⟩
  · intro y hy hpy
    obtain ⟨keepL, hsubL, hneL, rfl⟩ := mem_slices_iff.mp hy
    simp only [decide_eq_true_eq] at hpy
    obtain ⟨h1, _⟩ := hpy
    have hfix : keepL = c.datasets.filter (fun a => decide (a ∈ keepL)) :=
      sublist_eq_filter_of_nodup hsubL h
    have hkk : keepL = c.datasets.filter (fun d => decide (d ∈ S)) := by
      rw [hfix]
      apply List.filter_congr
      intro d _
      have : d ∈ keepL ↔ d ∈ S := by rw [← List.mem_toFinset, h1]
      simp [this]
    rw [hkk]

theorem slices_sizes_sorted (c : DatasetCollection) :
    (c.slices.map (fun s => s.keep.length)).Sorted (· ≤ ·) := by
  rw [DatasetCollection.slices, List.Sorted, List.map_flatMap, List.pairwise_flatMap]
  have hconst : ∀ (a : Nat) (x : Nat),
      x ∈ ((List.sublistsLen (a + 1) c.datasets).map
        (fun keepL => (⟨keepL, c.datasets.filter (fun d => decide (d ∉ keepL)), c⟩ :
          DataSlice))).map (fun s => s.keep.length) → x = a + 1 := by
    intro a x hx
    simp only [List.map_map, List.mem_map, Function.comp, List.mem_sublistsLen] at hx
    obtain ⟨ks, ⟨_, hlen⟩, rfl⟩ := hx
    exact hlen
  constructor
  · intro a _
    apply List.pairwise_of_forall_mem_list
    intro x hx y hy
    rw [hconst a x hx, hconst a y hy]
  · refine (List.pairwise_lt_range _).imp ?_
    intro a b hab x hx y hy
    rw [hconst a x hx, hconst b y hy]
    omega

/-- C2: `slices()` on a collection of `N` (distinct) datasets yields exactly
one slice per non-empty subset `S` — with `keep` equal to `S` and `exclude`
its complement — for a total of `2^N - 1`, enumerated with subset sizes
ascending; an empty collection yields nothing (and no error). -/
theorem slices_enumeration (c : DatasetCollection) (h : c.datasets.Nodup) :
    c.slices.length = 2 ^ c.datasets.length - 1 ∧
    (∀ S : Finset Dataset, S.Nonempty → S ⊆ c.datasets.toFinset →
      c.slices.countP (fun s => decide (s.keep.toFinset = S ∧
        s.exclude.toFinset = c.datasets.toFinset \ S)) = 1) ∧
    (c.slices.map (fun s => s.keep.length)).Sorted (· ≤ ·) ∧
    (c.datasets = [] → c.slices = []) :=
  ⟨slices_length c, fun S h1 h2 => slices_countP c h S h1 h2, slices_sizes_sorted c,
   fun h0 => by simp [DatasetCollection.slices, h0]⟩

theorem slices_enumeration_witness :
    wCol.slices.length = 2 ^ 2 - 1 ∧
    wCol.slices.countP (fun s => decide (s.keep.toFinset = {wdA} ∧
      s.exclude.toFinset = wCol.datasets.toFinset \ {wdA})) = 1 :=
  ⟨(slices_enumeration wCol (by decide)).1,
   (slices_enumeration wCol (by decide)).2.1 {wdA} ⟨wdA, by decide⟩ (by decide)⟩

/-- C4 (counterexample): the slice names are joined in the iteration order
of the `keep`/`exclude` sets, not sorted by dataset name: on a collection
whose set order lists dataset `b` before dataset `a`, the keep-both slice is
named `"(b & a) - ()"`, while the sorted form the claim prescribes would be
`"(a & b) - ()"`. -/
theorem slice_name_not_sorted :
    nameCol.slices.map (fun s => (s.name, nameSortedSpec s.keep s.exclude)) =
      [("(a) - (b)", "(a) - (b)"), ("(b) - (a)", "(b) - (a)"),
        ("(b & a) - ()", "(a & b) - ()")] ∧
    ("(b & a) - ()" : String) ≠ "(a & b) - ()" := by
  constructor
  · decide
  · decide

/-- C4 (amended): for every slice produced by `slices()`, the name is
`"(" + keep names joined by " & " + ") - (" + exclude names joined by
" | " + ")"`, with the names joined in the iteration order of the underlying
sets (no sorting), so the name depends on that order. -/
theorem slice_name_iteration_order (c : DatasetCollection) (s : DataSlice)
    (hs : s ∈ c.slices) :
    s.name = "(" ++ joinSep " & " (s.keep.map Dataset.name) ++ ") - ("
        ++ joinSep " | " (s.exclude.map Dataset.name) ++ ")" := rfl

theorem slice_name_iteration_order_witness :
    nameColSlice.name = "(" ++ joinSep " & " (nameColSlice.keep.map Dataset.name)
      ++ ") - (" ++ joinSep " | " (nameColSlice.exclude.map Dataset.name) ++ ")" :=
  slice_name_iteration_order nameCol nameColSlice (by decide)

theorem foldl_append_singleton {α β : Type} (g : α → β) :
    ∀ (l : List α) (acc : List β),
      l.foldl (fun acc x => acc ++ [g x]) acc = acc ++ l.map g := by
  intro l
  induction l with
  | nil => intro acc; simp
  | cons x xs ih =>
    intro acc
    rw [List.foldl_cons, ih, List.map_cons]
    simp

theorem foldl_append_blocks {α β : Type} (g : α → List β) :
    ∀ (l : List α) (acc : List β),
      l.foldl (fun acc x => acc ++ g x) acc = acc ++ l.flatMap g := by
  intro l
  induction l with
  | nil => intro acc; simp
  | cons x xs ih =>
    intro acc
    rw [List.foldl_cons, ih, List.flatMap_cons, List.append_assoc]

/-- C5: for every slice, `fields()` is the two identity columns followed,
for each payload field in declared order, by one `"<dataset name> <field>"`
column per keep dataset sorted by name; and `genes()` is one row per id in
`ids` (in that order), each row being the id, the display name (empty when
the shared name mapping has no entry), then for each payload field in
declared order, for each keep dataset sorted by name, that dataset's value
for that field at that id. -/
theorem fields_genes_spec (s : DataSlice) :
    s.fields = fieldsSpec s ∧ s.genes = s.ids.map (geneRowSpec s) := by
  constructor
  · rw [DataSlice.fields, fieldsSpec]
    simp only [foldl_append_singleton, foldl_append_blocks]
    rfl
  · rw [DataSlice.genes]
    apply List.map_congr_left
    intro i _
    rw [geneRowSpec]
    simp only [foldl_append_singleton, foldl_append_blocks]
    rfl

/-- C9: the enumeration is restartable and side-effect free: running
`slices()` (and fully consuming every slice's `genes()`) leaves the
collection — its dataset set and its name mapping — unchanged, and a second
run from the post-run state yields the same (hence set-equal) slices and
rows. -/
theorem enumeration_restartable (c : DatasetCollection) :
    c.slicesRun.2 = c ∧
    c.slicesRun.2.datasets = c.datasets ∧
    c.slicesRun.2.gene_names = c.gene_names ∧
    c.consumeSlices.2 = c ∧
    (c.slicesRun.2.slicesRun.1).Perm c.slicesRun.1 ∧
    c.slicesRun.2.consumeSlices.1 = c.consumeSlices.1 :=
  ⟨rfl, rfl, rfl, rfl, List.Perm.refl _, rfl⟩
